import Mathlib

/-!
# honeycombio/leakybucket

A shallow embedding of `leakybucket.go` and the properties of `Bucket.Add`.

The methods are embedded twice.  `Bucket.drain` and `Bucket.Add` read Go's
`int` and `time.Duration` as unbounded integers (`Int`): a `time.Time` is an
integer count of nanoseconds measured from the zero `time.Time` and `t.Sub(u)`
is `t - u`.  `Bucket.drain64` and `Bucket.Add64` are the same two methods with
the 64-bit wrap-around of `int` and the saturating `Time.Sub`; they agree with
the exact pair wherever no duration saturates and no result leaves the 64-bit
range (`Add64_eq_Add`), and differ from it otherwise.

The mutex only serialises callers and is not part of the sequential model.
`b.now()` reads an external clock; the three reads that one `Add` can make are
passed in explicitly as a `Clock`.
-/

namespace leakybucket

/-- One second as a `time.Duration` (a count of nanoseconds). -/
def Second : Int := 1000000000

/-- `BucketOverflow` error, the only error `Add` can return. -/
inductive BucketOverflow where
  | mk : BucketOverflow
  deriving DecidableEq, Repr

/-- Go's `error` result of `Add`: `none` is `nil`. -/
abbrev Err := Option BucketOverflow

/-- The `Bucket` struct (without the mutex and the test clock hook). -/
structure Bucket where
  Capacity : Int
  DrainAmount : Int
  /-- A `time.Duration`: nanoseconds. -/
  DrainPeriod : Int
  level : Int
  /-- A `time.Time`: nanoseconds since the zero `time.Time`. -/
  lastDrain : Int
  deriving DecidableEq, Repr

/-- The values `b.now()` returns at its three call sites during one `Add`:
`atAdd` in `Add` (line 48), `atSince` and `atStamp` in `drain` (lines 64, 81). -/
structure Clock where
  atAdd : Int
  atSince : Int
  atStamp : Int
  deriving DecidableEq, Repr

/-- A clock that shows the same reading at every call site, as the test
`fakeNower` does between two `incrementSec` calls. -/
def Clock.const (t : Int) : Clock := ⟨t, t, t⟩

/-- The composite literal `Bucket{Capacity: c, DrainAmount: a, DrainPeriod: p}`:
`level` is 0 and `lastDrain` is the zero `time.Time`. -/
def Bucket.fresh (c a : Int) (p : Int) : Bucket :=
  { Capacity := c, DrainAmount := a, DrainPeriod := p, level := 0, lastDrain := 0 }

/-- The local `timeSince` of `drain` after its clamp at 0. -/
def Bucket.timeSince (b : Bucket) (now : Int) : Int :=
  let timeSince := now - b.lastDrain
  if timeSince < 0 then 0 else timeSince

/-- The local `numTimes` of `drain`: Go's `/` truncates toward zero. -/
def Bucket.numTimes (b : Bucket) (now : Int) : Int :=
  if b.DrainPeriod = 0 then 1 else (b.timeSince now).tdiv b.DrainPeriod

/-- The method `drain`. -/
def Bucket.drain (b : Bucket) (clk : Clock) : Bucket :=
  let drainAmount := b.numTimes clk.atSince * b.DrainAmount
  let level := b.level - drainAmount
  let level := if level < 0 then 0 else level
  { b with level := level, lastDrain := clk.atStamp }

/-- The guard of `Add` that decides whether `drain` is called. -/
def Bucket.drainDue (b : Bucket) (now : Int) : Bool :=
  let durSinceDrain := now - b.lastDrain
  decide (durSinceDrain ≥ b.DrainPeriod) || decide (durSinceDrain < 0)

/-- The bucket as `Add` sees it at its capacity check. -/
def Bucket.drained (b : Bucket) (clk : Clock) : Bucket :=
  if b.drainDue clk.atAdd then b.drain clk else b

/-- The method `Add`: the bucket after the call and the returned error. -/
def Bucket.Add (b : Bucket) (clk : Clock) : Bucket × Err :=
  let b := b.drained clk
  if b.level < b.Capacity then
    ({ b with level := b.level + 1 }, none)
  else
    (b, some BucketOverflow.mk)

/-- A sequence of `Add` calls, one per clock: the final bucket and the
errors returned, in call order. -/
def Bucket.Adds : Bucket → List Clock → Bucket × List Err
  | b, [] => (b, [])
  | b, clk :: rest =>
    let r := b.Add clk
    let rs := Bucket.Adds r.1 rest
    (rs.1, r.2 :: rs.2)

/-- Number of calls in a result list that returned `nil`. -/
def successes (rs : List Err) : Nat := rs.count none

/-- Number of calls in a result list that returned `BucketOverflow`. -/
def failures (rs : List Err) : Nat := rs.count (some BucketOverflow.mk)

/-- The errors `n` calls return when the `i`-th (from 0) succeeds iff `l + i < c`. -/
def verdicts (l c : Int) (n : Nat) : List (Option BucketOverflow) :=
  (List.range n).map fun (i : Nat) => if l + (i : Int) < c then none else some BucketOverflow.mk

/-- Reference definition of the drain step, written from the specification
text (component design, step 3): the effective elapsed time is the elapsed time
floored at 0, a zero drain period counts as one period, otherwise the periods
are the floor of the quotient, and the level is reduced by periods times the
drain amount and floored at 0; the last drain time becomes `now`. -/
def drainSpec (b : Bucket) (now : Int) : Bucket :=
  let effectiveElapsed := max (now - b.lastDrain) 0
  let periods := if b.DrainPeriod = 0 then 1 else Int.fdiv effectiveElapsed b.DrainPeriod
  { b with level := max (b.level - periods * b.DrainAmount) 0, lastDrain := now }

/-! ### Machine arithmetic

The same two methods with Go's 64-bit `int` and `time.Duration`: every
arithmetic result is wrapped into the two's-complement range, and `Time.Sub`
saturates at the smallest and largest `Duration`. -/

/-- Largest `int64`, `2^63 - 1`, also `maxDuration`. -/
def maxInt64 : Int := 9223372036854775807

/-- Smallest `int64`, `-2^63`, also `minDuration`. -/
def minInt64 : Int := -9223372036854775808

/-- The `int64` that an exact result wraps to: its residue modulo `2^64` in
`[-2^63, 2^63)`. -/
def wrap64 (x : Int) : Int :=
  (x + 9223372036854775808) % 18446744073709551616 - 9223372036854775808

/-- `t.Sub(u)` of package `time`: the difference, saturated to the range of
`Duration`. -/
def subSat (t u : Int) : Int :=
  if t - u > maxInt64 then maxInt64 else if t - u < minInt64 then minInt64 else t - u

/-- The method `drain` in 64-bit arithmetic. -/
def Bucket.drain64 (b : Bucket) (clk : Clock) : Bucket :=
  let timeSince := subSat clk.atSince b.lastDrain
  let timeSince := if timeSince < 0 then 0 else timeSince
  let numTimes := if b.DrainPeriod = 0 then 1 else wrap64 (timeSince.tdiv b.DrainPeriod)
  let drainAmount := wrap64 (numTimes * b.DrainAmount)
  let level := wrap64 (b.level - drainAmount)
  let level := if level < 0 then 0 else level
  { b with level := level, lastDrain := clk.atStamp }

/-- The method `Add` in 64-bit arithmetic. -/
def Bucket.Add64 (b : Bucket) (clk : Clock) : Bucket × Err :=
  let durSinceDrain := subSat clk.atAdd b.lastDrain
  let b := if decide (durSinceDrain ≥ b.DrainPeriod) || decide (durSinceDrain < 0)
    then b.drain64 clk else b
  if b.level < b.Capacity then
    ({ b with level := wrap64 (b.level + 1) }, none)
  else
    (b, some BucketOverflow.mk)

/-- A sequence of `Add` calls in 64-bit arithmetic, one per clock. -/
def Bucket.Adds64 : Bucket → List Clock → Bucket × List Err
  | b, [] => (b, [])
  | b, clk :: rest =>
    let r := b.Add64 clk
    let rs := Bucket.Adds64 r.1 rest
    (rs.1, r.2 :: rs.2)

/-! ## Basic facts about `drain` and `Add` -/

theorem timeSince_eq (b : Bucket) (now : Int) :
    b.timeSince now = max 0 (now - b.lastDrain) := by
  unfold Bucket.timeSince
  by_cases h : now - b.lastDrain < 0
  · simp only [h, if_true]; omega
  · simp only [h, if_false]; omega

theorem timeSince_nonneg (b : Bucket) (now : Int) : 0 ≤ b.timeSince now := by
  rw [timeSince_eq]; omega

theorem numTimes_nonneg (b : Bucket) (now : Int) (hP : 0 ≤ b.DrainPeriod) :
    0 ≤ b.numTimes now := by
  unfold Bucket.numTimes
  split
  · decide
  · exact Int.tdiv_nonneg (timeSince_nonneg b now) hP

theorem drain_level (b : Bucket) (clk : Clock) :
    (b.drain clk).level = max 0 (b.level - b.numTimes clk.atSince * b.DrainAmount) := by
  unfold Bucket.drain
  simp only
  split <;> omega

theorem drain_level_nonneg (b : Bucket) (clk : Clock) : 0 ≤ (b.drain clk).level := by
  rw [drain_level]; omega

theorem drain_level_le (b : Bucket) (clk : Clock) (hA : 0 ≤ b.DrainAmount)
    (hP : 0 ≤ b.DrainPeriod) (hl : 0 ≤ b.level) : (b.drain clk).level ≤ b.level := by
  rw [drain_level]
  have := Int.mul_nonneg (numTimes_nonneg b clk.atSince hP) hA
  omega

@[simp] theorem drain_Capacity (b : Bucket) (clk : Clock) :
    (b.drain clk).Capacity = b.Capacity := rfl

@[simp] theorem drain_DrainAmount (b : Bucket) (clk : Clock) :
    (b.drain clk).DrainAmount = b.DrainAmount := rfl

@[simp] theorem drain_DrainPeriod (b : Bucket) (clk : Clock) :
    (b.drain clk).DrainPeriod = b.DrainPeriod := rfl

@[simp] theorem drain_lastDrain (b : Bucket) (clk : Clock) :
    (b.drain clk).lastDrain = clk.atStamp := rfl

@[simp] theorem drained_Capacity (b : Bucket) (clk : Clock) :
    (b.drained clk).Capacity = b.Capacity := by
  unfold Bucket.drained; split <;> rfl

@[simp] theorem drained_DrainAmount (b : Bucket) (clk : Clock) :
    (b.drained clk).DrainAmount = b.DrainAmount := by
  unfold Bucket.drained; split <;> rfl

@[simp] theorem drained_DrainPeriod (b : Bucket) (clk : Clock) :
    (b.drained clk).DrainPeriod = b.DrainPeriod := by
  unfold Bucket.drained; split <;> rfl

theorem drained_level_nonneg (b : Bucket) (clk : Clock) (hl : 0 ≤ b.level) :
    0 ≤ (b.drained clk).level := by
  unfold Bucket.drained
  split
  · exact drain_level_nonneg b clk
  · exact hl

theorem drained_level_le (b : Bucket) (clk : Clock) (hA : 0 ≤ b.DrainAmount)
    (hP : 0 ≤ b.DrainPeriod) (hl : 0 ≤ b.level) : (b.drained clk).level ≤ b.level := by
  unfold Bucket.drained
  split
  · exact drain_level_le b clk hA hP hl
  · exact le_refl _

theorem Add_fst_level (b : Bucket) (clk : Clock) :
    (b.Add clk).1.level =
      if (b.drained clk).level < b.Capacity then (b.drained clk).level + 1
      else (b.drained clk).level := by
  unfold Bucket.Add
  simp only [drained_Capacity]
  split <;> rfl

theorem Add_snd (b : Bucket) (clk : Clock) :
    (b.Add clk).2 =
      if (b.drained clk).level < b.Capacity then none else some BucketOverflow.mk := by
  unfold Bucket.Add
  simp only [drained_Capacity]
  split <;> rfl

@[simp] theorem Add_Capacity (b : Bucket) (clk : Clock) :
    (b.Add clk).1.Capacity = b.Capacity := by
  unfold Bucket.Add
  simp only
  split <;> simp

@[simp] theorem Add_DrainAmount (b : Bucket) (clk : Clock) :
    (b.Add clk).1.DrainAmount = b.DrainAmount := by
  unfold Bucket.Add
  simp only
  split <;> simp

@[simp] theorem Add_DrainPeriod (b : Bucket) (clk : Clock) :
    (b.Add clk).1.DrainPeriod = b.DrainPeriod := by
  unfold Bucket.Add
  simp only
  split <;> simp

@[simp] theorem Adds_nil (b : Bucket) : b.Adds [] = (b, []) := rfl

theorem Adds_cons (b : Bucket) (clk : Clock) (rest : List Clock) :
    b.Adds (clk :: rest) =
      (((b.Add clk).1.Adds rest).1, (b.Add clk).2 :: ((b.Add clk).1.Adds rest).2) := rfl

theorem Adds_Capacity (clks : List Clock) : ∀ (b : Bucket),
    (b.Adds clks).1.Capacity = b.Capacity := by
  induction clks with
  | nil => intro b; rfl
  | cons clk rest ih => intro b; rw [Adds_cons]; simp [ih]

theorem Adds_DrainAmount (clks : List Clock) : ∀ (b : Bucket),
    (b.Adds clks).1.DrainAmount = b.DrainAmount := by
  induction clks with
  | nil => intro b; rfl
  | cons clk rest ih => intro b; rw [Adds_cons]; simp [ih]

theorem Adds_DrainPeriod (clks : List Clock) : ∀ (b : Bucket),
    (b.Adds clks).1.DrainPeriod = b.DrainPeriod := by
  induction clks with
  | nil => intro b; rfl
  | cons clk rest ih => intro b; rw [Adds_cons]; simp [ih]

theorem Adds_length (clks : List Clock) : ∀ (b : Bucket),
    (b.Adds clks).2.length = clks.length := by
  induction clks with
  | nil => intro b; rfl
  | cons clk rest ih => intro b; rw [Adds_cons]; simp [ih]

/-- The level bounds are preserved by one `Add`. -/
theorem Add_level_bounds (b : Bucket) (clk : Clock) (hA : 0 ≤ b.DrainAmount)
    (hP : 0 ≤ b.DrainPeriod) (h0 : 0 ≤ b.level) (hC : b.level ≤ b.Capacity) :
    0 ≤ (b.Add clk).1.level ∧ (b.Add clk).1.level ≤ b.Capacity := by
  have h1 := drained_level_nonneg b clk h0
  have h2 := drained_level_le b clk hA hP h0
  rw [Add_fst_level]
  split <;> omega

/-- The level bounds are preserved by any sequence of `Add` calls. -/
theorem Adds_level_bounds (clks : List Clock) : ∀ (b : Bucket), 0 ≤ b.DrainAmount →
    0 ≤ b.DrainPeriod → 0 ≤ b.level → b.level ≤ b.Capacity →
    0 ≤ (b.Adds clks).1.level ∧ (b.Adds clks).1.level ≤ b.Capacity := by
  induction clks with
  | nil => intro b _ _ h0 hC; exact ⟨h0, hC⟩
  | cons clk rest ih =>
    intro b hA hP h0 hC
    rw [Adds_cons]
    have hb := Add_level_bounds b clk hA hP h0 hC
    have := ih (b.Add clk).1 (by simpa using hA) (by simpa using hP) hb.1 (by simpa using hb.2)
    simpa using this

/-! ## Calls at one clock reading -/

theorem verdicts_zero (l c : Int) : verdicts l c 0 = [] := rfl

theorem verdicts_succ (l c : Int) (n : Nat) :
    verdicts l c (n + 1) =
      (if l < c then none else some BucketOverflow.mk) :: verdicts (l + 1) c n := by
  unfold verdicts
  rw [List.range_succ_eq_map, List.map_cons, List.map_map]
  congr 1
  · simp
  · apply List.map_congr_left
    intro i _
    simp only [Function.comp, Nat.succ_eq_add_one, Nat.cast_add, Nat.cast_one]
    have : l + ((i : Int) + 1) = l + 1 + (i : Int) := by ring
    rw [this]

theorem verdicts_of_full (l c : Int) (n : Nat) (h : c ≤ l) :
    verdicts l c n = List.replicate n (some BucketOverflow.mk) := by
  induction n generalizing l with
  | zero => rfl
  | succ n ih =>
    rw [verdicts_succ, if_neg (by omega), ih (l + 1) (by omega), List.replicate_succ]

theorem successes_verdicts (n : Nat) : ∀ (l c : Int),
    successes (verdicts l c n) = min n (c - l).toNat := by
  induction n with
  | zero => intro l c; simp [verdicts_zero, successes]
  | succ n ih =>
    intro l c
    rw [verdicts_succ]
    unfold successes at ih ⊢
    by_cases h : l < c
    · rw [if_pos h, List.count_cons_self, ih]; omega
    · rw [if_neg h, List.count_cons_of_ne (by simp), ih]; omega

theorem failures_verdicts (n : Nat) : ∀ (l c : Int),
    failures (verdicts l c n) = n - (c - l).toNat := by
  induction n with
  | zero => intro l c; simp [verdicts_zero, failures]
  | succ n ih =>
    intro l c
    rw [verdicts_succ]
    unfold failures at ih ⊢
    by_cases h : l < c
    · rw [if_pos h, List.count_cons_of_ne (by simp), ih]; omega
    · rw [if_neg h, List.count_cons_self, ih]; omega

theorem drained_of_not_due (b : Bucket) (clk : Clock) (h : b.drainDue clk.atAdd = false) :
    b.drained clk = b := by
  unfold Bucket.drained; rw [h]; rfl

theorem drained_of_due (b : Bucket) (clk : Clock) (h : b.drainDue clk.atAdd = true) :
    b.drained clk = b.drain clk := by
  unfold Bucket.drained; rw [h]; rfl

theorem Add_lastDrain (b : Bucket) (clk : Clock) :
    (b.Add clk).1.lastDrain = (b.drained clk).lastDrain := by
  unfold Bucket.Add
  simp only
  split <;> rfl

theorem drainDue_congr (b b2 : Bucket) (t : Int) (h1 : b2.lastDrain = b.lastDrain)
    (h2 : b2.DrainPeriod = b.DrainPeriod) : b2.drainDue t = b.drainDue t := by
  unfold Bucket.drainDue; rw [h1, h2]

/-- Calls at a reading for which no drain is due: the level only counts up. -/
theorem Adds_const_not_due (t : Int) (n : Nat) : ∀ (b : Bucket), b.drainDue t = false →
    (b.Adds (List.replicate n (Clock.const t))).2 = verdicts b.level b.Capacity n := by
  induction n with
  | zero => intro b _; rfl
  | succ n ih =>
    intro b h
    have hd : b.drained (Clock.const t) = b := drained_of_not_due b (Clock.const t) h
    have hdue : (b.Add (Clock.const t)).1.drainDue t = false := by
      rw [drainDue_congr b _ t (by rw [Add_lastDrain, hd]) (by simp)]; exact h
    rw [List.replicate_succ, Adds_cons, ih _ hdue, verdicts_succ, Add_snd, Add_fst_level, hd,
      Add_Capacity]
    by_cases hl : b.level < b.Capacity
    · simp only [if_pos hl]
    · simp only [if_neg hl]
      rw [verdicts_of_full _ _ _ (by omega), verdicts_of_full _ _ _ (by omega)]

theorem drained_not_due (b : Bucket) (t : Int) (hP : 0 < b.DrainPeriod) :
    (b.drained (Clock.const t)).drainDue t = false := by
  cases h : b.drainDue t with
  | false => rw [drained_of_not_due b (Clock.const t) h]; exact h
  | true =>
    rw [drained_of_due b (Clock.const t) h]
    unfold Bucket.drainDue
    simp only [drain_lastDrain, drain_DrainPeriod, Clock.const, sub_self]
    simp
    omega

/-- Calls at one reading with a positive drain period: only the first call can
drain, the rest count up from the drained level. -/
theorem Adds_const (t : Int) (n : Nat) (b : Bucket) (hP : 0 < b.DrainPeriod) :
    (b.Adds (List.replicate n (Clock.const t))).2 =
      verdicts (b.drained (Clock.const t)).level b.Capacity n := by
  have hnd := drained_not_due b t hP
  have hfix : (b.drained (Clock.const t)).drained (Clock.const t) = b.drained (Clock.const t) :=
    drained_of_not_due _ (Clock.const t) hnd
  have hAdd : b.Add (Clock.const t) = (b.drained (Clock.const t)).Add (Clock.const t) := by
    unfold Bucket.Add
    rw [hfix]
  rw [← drained_Capacity b (Clock.const t), ← Adds_const_not_due t n _ hnd]
  cases n with
  | zero => rfl
  | succ n => rw [List.replicate_succ, Adds_cons, Adds_cons, hAdd]

theorem verdicts_eq_map (l c m : Int) (n : Nat) (h : ∀ i : Nat, l + (i : Int) < c ↔ (i : Int) + 1 ≤ m) :
    verdicts l c n =
      (List.range n).map fun (i : Nat) =>
        if (i : Int) + 1 ≤ m then none else some BucketOverflow.mk := by
  unfold verdicts
  apply List.map_congr_left
  intro i _
  by_cases hi : l + (i : Int) < c
  · rw [if_pos hi, if_pos ((h i).1 hi)]
  · rw [if_neg hi, if_neg (fun h2 => hi ((h i).2 h2))]

/-- With a positive drain period and a clock that did not go backward, the
level at the capacity check is the old level less the whole periods elapsed
times the drain amount, floored at 0. -/
theorem drained_level_forward (b : Bucket) (t : Int) (hP : 0 < b.DrainPeriod)
    (ht : b.lastDrain ≤ t) (hl : 0 ≤ b.level) :
    (b.drained (Clock.const t)).level =
      max 0 (b.level - (t - b.lastDrain) / b.DrainPeriod * b.DrainAmount) := by
  cases h : b.drainDue t with
  | false =>
    rw [drained_of_not_due b (Clock.const t) h]
    unfold Bucket.drainDue at h
    simp only [Bool.or_eq_false_iff, decide_eq_false_iff_not, not_le, not_lt] at h
    rw [Int.ediv_eq_zero_of_lt h.2 h.1]
    omega
  | true =>
    rw [drained_of_due b (Clock.const t) h, drain_level]
    have hk : b.numTimes (Clock.const t).atSince = (t - b.lastDrain) / b.DrainPeriod := by
      unfold Bucket.numTimes
      rw [if_neg (by omega), timeSince_eq]
      have : max 0 ((Clock.const t).atSince - b.lastDrain) = t - b.lastDrain := by
        simp only [Clock.const]; omega
      rw [this]
      exact Int.tdiv_eq_ediv (by omega) (by omega)
    rw [hk]

/-! ## Degenerate configurations -/

theorem drainDue_of_zero_period (b : Bucket) (t : Int) (hP : b.DrainPeriod = 0) :
    b.drainDue t = true := by
  unfold Bucket.drainDue
  simp only [hP, ge_iff_le, Bool.or_eq_true, decide_eq_true_eq]
  omega

/-- A bucket with drain amount 0 keeps its level through the drain step. -/
theorem drained_level_no_leak (b : Bucket) (clk : Clock) (hA : b.DrainAmount = 0)
    (hl : 0 ≤ b.level) : (b.drained clk).level = b.level := by
  cases h : b.drainDue clk.atAdd with
  | false => rw [drained_of_not_due b clk h]
  | true =>
    rw [drained_of_due b clk h, drain_level, hA, Int.mul_zero]
    omega

theorem Adds_no_leak (clks : List Clock) : ∀ (b : Bucket), b.DrainAmount = 0 → 0 ≤ b.level →
    (b.Adds clks).2 = verdicts b.level b.Capacity clks.length := by
  induction clks with
  | nil => intro b _ _; rfl
  | cons clk rest ih =>
    intro b hA hl
    have hd := drained_level_no_leak b clk hA hl
    have hlev : (b.Add clk).1.level = if b.level < b.Capacity then b.level + 1 else b.level := by
      rw [Add_fst_level, hd]
    have hl2 : 0 ≤ (b.Add clk).1.level := by rw [hlev]; split <;> omega
    rw [Adds_cons, ih _ (by simpa using hA) hl2, List.length_cons, verdicts_succ, Add_snd, hd,
      hlev, Add_Capacity]
    by_cases hlt : b.level < b.Capacity
    · simp only [if_pos hlt]
    · simp only [if_neg hlt]
      rw [verdicts_of_full _ _ _ (by omega), verdicts_of_full _ _ _ (by omega)]

/-- With drain period 0 and a drain amount of at least 1, a level of at most 1
is emptied by the drain that every `Add` performs. -/
theorem drained_level_zero_period (b : Bucket) (clk : Clock) (hP : b.DrainPeriod = 0)
    (hA : 1 ≤ b.DrainAmount) (hl : b.level ≤ 1) : (b.drained clk).level = 0 := by
  rw [drained_of_due b clk (drainDue_of_zero_period b clk.atAdd hP), drain_level]
  have : b.numTimes clk.atSince = 1 := by unfold Bucket.numTimes; rw [if_pos hP]
  rw [this]
  omega

theorem Adds_zero_period (clks : List Clock) : ∀ (b : Bucket), b.DrainPeriod = 0 →
    1 ≤ b.DrainAmount → 1 ≤ b.Capacity → b.level ≤ 1 →
    (b.Adds clks).2 = List.replicate clks.length none := by
  induction clks with
  | nil => intro b _ _ _ _; rfl
  | cons clk rest ih =>
    intro b hP hA hC hl
    have hd := drained_level_zero_period b clk hP hA hl
    have hlev : (b.Add clk).1.level = 1 := by
      rw [Add_fst_level, hd, if_pos (by omega)]; rfl
    rw [Adds_cons, ih _ (by simpa using hP) (by simpa using hA) (by simpa using hC)
      (by omega), Add_snd, hd, if_pos (by omega), List.length_cons, List.replicate_succ]

theorem Adds_zero_capacity (clks : List Clock) : ∀ (b : Bucket), b.Capacity = 0 →
    0 ≤ b.level → (b.Adds clks).2 = List.replicate clks.length (some BucketOverflow.mk) := by
  induction clks with
  | nil => intro b _ _; rfl
  | cons clk rest ih =>
    intro b hC hl
    have hd := drained_level_nonneg b clk hl
    have hlev : (b.Add clk).1.level = (b.drained clk).level := by
      rw [Add_fst_level, if_neg (by omega)]
    rw [Adds_cons, ih _ (by simpa using hC) (by omega), Add_snd, if_neg (by omega),
      List.length_cons, List.replicate_succ]

theorem drain_eq (b : Bucket) (clk : Clock) :
    b.drain clk = { b with level := (b.drain clk).level, lastDrain := clk.atStamp } := rfl

theorem numTimes_of_zero_period (b : Bucket) (now : Int) (hP : b.DrainPeriod = 0) :
    b.numTimes now = 1 := by
  unfold Bucket.numTimes; rw [if_pos hP]

theorem numTimes_of_no_elapsed (b : Bucket) (now : Int) (hP : b.DrainPeriod ≠ 0)
    (h : now ≤ b.lastDrain) : b.numTimes now = 0 := by
  unfold Bucket.numTimes
  have : b.timeSince now = 0 := by rw [timeSince_eq]; omega
  rw [if_neg hP, this]
  exact Int.zero_tdiv _

/-- A full bucket with a nonzero drain period, called at the reading of its
last drain: every call is rejected. -/
theorem Adds_full_no_elapsed (t : Int) (n : Nat) : ∀ (b : Bucket), b.DrainPeriod ≠ 0 →
    b.Capacity ≤ b.level → b.lastDrain = t →
    (b.Adds (List.replicate n (Clock.const t))).2 =
      List.replicate n (some BucketOverflow.mk) := by
  induction n with
  | zero => intro b _ _ _; rfl
  | succ n ih =>
    intro b hP hfull ht
    have hlev : b.level ≤ (b.drained (Clock.const t)).level := by
      cases h : b.drainDue (Clock.const t).atAdd with
      | false => rw [drained_of_not_due b _ h]
      | true =>
        rw [drained_of_due b _ h, drain_level,
          numTimes_of_no_elapsed b (Clock.const t).atSince hP (by simp [Clock.const, ht])]
        omega
    have hstamp : (b.drained (Clock.const t)).lastDrain = t := by
      cases h : b.drainDue (Clock.const t).atAdd with
      | false => rw [drained_of_not_due b _ h]; exact ht
      | true => rw [drained_of_due b _ h]; rfl
    have hrej : ¬ (b.drained (Clock.const t)).level < b.Capacity := by omega
    have hl2 : (b.Add (Clock.const t)).1.level = (b.drained (Clock.const t)).level := by
      rw [Add_fst_level, if_neg hrej]
    rw [List.replicate_succ, Adds_cons, Add_snd, if_neg hrej,
      ih _ (by simpa using hP) (by rw [hl2, Add_Capacity]; omega)
        (by rw [Add_lastDrain, hstamp]), List.replicate_succ]

theorem successes_replicate_overflow (n : Nat) :
    successes (List.replicate n (some BucketOverflow.mk)) = 0 := by
  unfold successes
  rw [List.count_replicate]
  simp

theorem failures_replicate_overflow (n : Nat) :
    failures (List.replicate n (some BucketOverflow.mk)) = n := by
  unfold failures
  rw [List.count_replicate_self]

theorem Adds_nonpos_capacity (clks : List Clock) : ∀ (b : Bucket), b.Capacity ≤ 0 →
    0 ≤ b.level → (b.Adds clks).2 = List.replicate clks.length (some BucketOverflow.mk) := by
  induction clks with
  | nil => intro b _ _; rfl
  | cons clk rest ih =>
    intro b hC hl
    have hd := drained_level_nonneg b clk hl
    have hlev : (b.Add clk).1.level = (b.drained clk).level := by
      rw [Add_fst_level, if_neg (by omega)]
    rw [Adds_cons, ih _ (by simpa using hC) (by omega), Add_snd, if_neg (by omega),
      List.length_cons, List.replicate_succ]

/-! ## Throughput bound -/

theorem successes_cons (r : Option BucketOverflow) (rs : List (Option BucketOverflow)) :
    successes (r :: rs) = (if r = none then 1 else 0) + successes rs := by
  unfold successes
  cases r with
  | none => rw [List.count_cons_self, if_pos rfl]; omega
  | some e => rw [List.count_cons_of_ne (by simp), if_neg (by simp)]; omega

/-- Whole periods of two consecutive stretches never exceed the whole periods
of the joined stretch. -/
theorem periods_superadditive (x y p : Int) (hp : 0 < p) : x / p + y / p ≤ (x + y) / p := by
  apply Int.le_ediv_of_mul_le hp
  have h1 := Int.ediv_mul_le x (Int.ne_of_gt hp)
  have h2 := Int.ediv_mul_le y (Int.ne_of_gt hp)
  rw [Int.add_mul]
  omega

theorem drained_lastDrain_const (b : Bucket) (t : Int) :
    (b.drained (Clock.const t)).lastDrain = if b.drainDue t = true then t else b.lastDrain := by
  cases h : b.drainDue t with
  | false => rw [drained_of_not_due b (Clock.const t) h]; simp
  | true => rw [drained_of_due b (Clock.const t) h]; simp [Clock.const]

/-- The allowance `(Capacity - level) + periods left until T * DrainAmount`
pays for every admission: one `Add` at `t` lowers it by at least 1 when it
admits and never raises it. -/
theorem Add_allowance (b : Bucket) (t T : Int) (hA : 0 ≤ b.DrainAmount)
    (hP : 0 < b.DrainPeriod) (hl : 0 ≤ b.level) (ht : b.lastDrain ≤ t) :
    (if (b.Add (Clock.const t)).2 = none then 1 else 0) +
        (b.Capacity - (b.Add (Clock.const t)).1.level +
          (T - (b.Add (Clock.const t)).1.lastDrain) / b.DrainPeriod * b.DrainAmount) ≤
      b.Capacity - b.level + (T - b.lastDrain) / b.DrainPeriod * b.DrainAmount := by
  rw [Add_snd, Add_fst_level, Add_lastDrain, drained_lastDrain_const]
  cases h : b.drainDue t with
  | false =>
    rw [drained_of_not_due b (Clock.const t) h]
    simp only [Bool.false_eq_true, if_false]
    by_cases hlt : b.level < b.Capacity
    · simp only [if_pos hlt, if_true]; omega
    · simp only [if_neg hlt]; simp
  | true =>
    have hlev := drained_level_forward b t hP ht hl
    have hk : 0 ≤ (t - b.lastDrain) / b.DrainPeriod :=
      Int.ediv_nonneg (by omega) (le_of_lt hP)
    have hsup := periods_superadditive (T - t) (t - b.lastDrain) b.DrainPeriod hP
    have hsum : T - t + (t - b.lastDrain) = T - b.lastDrain := by omega
    rw [hsum] at hsup
    have hmul := Int.mul_le_mul_of_nonneg_right hsup hA
    rw [Int.add_mul] at hmul
    have hkA := Int.mul_nonneg hk hA
    rw [hlev]
    simp only [if_true]
    by_cases hlt : max 0 (b.level - (t - b.lastDrain) / b.DrainPeriod * b.DrainAmount)
        < b.Capacity
    · simp only [if_pos hlt, if_true]; omega
    · simp only [if_neg hlt]
      simp only [reduceCtorEq, if_false]
      omega

theorem Add_lastDrain_le (b : Bucket) (t u : Int) (h1 : b.lastDrain ≤ u) (h2 : t ≤ u) :
    (b.Add (Clock.const t)).1.lastDrain ≤ u := by
  rw [Add_lastDrain, drained_lastDrain_const]
  split <;> assumption

/-- Successes over a non-decreasing run of readings are bounded by the
allowance up to any time `T` not before the last reading. -/
theorem Adds_allowance (T : Int) (ts : List Int) : ∀ (b : Bucket), 0 ≤ b.DrainAmount →
    0 < b.DrainPeriod → 0 ≤ b.level → b.level ≤ b.Capacity →
    List.Sorted (fun x y : Int => x ≤ y) ts → (∀ t ∈ ts, b.lastDrain ≤ t) →
    (∀ t ∈ ts, t ≤ T) → b.lastDrain ≤ T →
    (successes (b.Adds (ts.map Clock.const)).2 : Int) ≤
      b.Capacity - b.level + (T - b.lastDrain) / b.DrainPeriod * b.DrainAmount := by
  induction ts with
  | nil =>
    intro b hA hP _ hC _ _ _ hT
    have hk : 0 ≤ (T - b.lastDrain) / b.DrainPeriod :=
      Int.ediv_nonneg (by omega) (le_of_lt hP)
    have := Int.mul_nonneg hk hA
    simp only [List.map_nil, Adds_nil, successes, List.count_nil, Nat.cast_zero]
    omega
  | cons t rest ih =>
    intro b hA hP hl hC hs hlo hhi hT
    have hsc := List.sorted_cons.1 hs
    have ht : b.lastDrain ≤ t := hlo t (List.mem_cons_self _ _)
    have htT : t ≤ T := hhi t (List.mem_cons_self _ _)
    have hb := Add_level_bounds b (Clock.const t) hA (le_of_lt hP) hl hC
    have hstep := Add_allowance b t T hA hP hl ht
    have hrec := ih (b.Add (Clock.const t)).1 (by simpa using hA) (by simpa using hP)
      hb.1 (by simpa using hb.2) hsc.2
      (fun u hu => Add_lastDrain_le b t u (hlo u (List.mem_cons_of_mem _ hu)) (hsc.1 u hu))
      (fun u hu => hhi u (List.mem_cons_of_mem _ hu))
      (Add_lastDrain_le b t T hT htT)
    simp only [Add_Capacity, Add_DrainPeriod, Add_DrainAmount] at hrec
    rw [List.map_cons, Adds_cons, successes_cons]
    push_cast
    omega

theorem sorted_le_getLast : ∀ (l : List Int) (h : l ≠ []),
    List.Sorted (fun x y : Int => x ≤ y) l → ∀ x ∈ l, x ≤ l.getLast h := by
  intro l
  induction l with
  | nil => intro h; exact absurd rfl h
  | cons a rest ih =>
    intro h hs x hx
    have hsc := List.sorted_cons.1 hs
    by_cases hr : rest = []
    · subst hr
      simp only [List.mem_singleton] at hx
      simp [hx]
    · rw [List.getLast_cons hr]
      rcases List.mem_cons.1 hx with hxa | hxr
      · rw [hxa]; exact hsc.1 _ (List.getLast_mem hr)
      · exact ih hr hsc.2 x hxr

/-! ## Monotonicity in the clock reading -/

/-- With a positive drain period, the level at the capacity check of a call at
reading `t` is the old level less the whole periods in `max 0 (t - lastDrain)`
times the drain amount, floored at 0; this covers the calls that skip the drain
and the calls under a clock that went backward. -/
theorem drained_level_eq (b : Bucket) (t : Int) (hP : 0 < b.DrainPeriod) (hl : 0 ≤ b.level) :
    (b.drained (Clock.const t)).level =
      max 0 (b.level - max 0 (t - b.lastDrain) / b.DrainPeriod * b.DrainAmount) := by
  cases h : b.drainDue t with
  | false =>
    rw [drained_of_not_due b (Clock.const t) h]
    unfold Bucket.drainDue at h
    simp only [Bool.or_eq_false_iff, decide_eq_false_iff_not, not_le, not_lt] at h
    have hm : max 0 (t - b.lastDrain) = t - b.lastDrain := by omega
    rw [hm, Int.ediv_eq_zero_of_lt h.2 h.1]
    omega
  | true =>
    rw [drained_of_due b (Clock.const t) h, drain_level]
    have hk : b.numTimes (Clock.const t).atSince = max 0 (t - b.lastDrain) / b.DrainPeriod := by
      unfold Bucket.numTimes
      rw [if_neg (by omega), timeSince_eq]
      exact Int.tdiv_eq_ediv (by simp [Clock.const]) (by omega)
    rw [hk]

/-- A later reading never leaves a higher level at the capacity check. -/
theorem drained_level_antitone (b : Bucket) (t u : Int) (hA : 0 ≤ b.DrainAmount)
    (hP : 0 ≤ b.DrainPeriod) (hl : 0 ≤ b.level) (htu : t ≤ u) :
    (b.drained (Clock.const u)).level ≤ (b.drained (Clock.const t)).level := by
  by_cases hz : b.DrainPeriod = 0
  · have h1 : (b.drained (Clock.const t)).level = max 0 (b.level - b.DrainAmount) := by
      rw [drained_of_due b _ (drainDue_of_zero_period b _ hz), drain_level,
        numTimes_of_zero_period b _ hz, Int.one_mul]
    have h2 : (b.drained (Clock.const u)).level = max 0 (b.level - b.DrainAmount) := by
      rw [drained_of_due b _ (drainDue_of_zero_period b _ hz), drain_level,
        numTimes_of_zero_period b _ hz, Int.one_mul]
    rw [h1, h2]
  · have hpos : 0 < b.DrainPeriod := by omega
    rw [drained_level_eq b t hpos hl, drained_level_eq b u hpos hl]
    have hq : max 0 (t - b.lastDrain) / b.DrainPeriod ≤ max 0 (u - b.lastDrain) / b.DrainPeriod :=
      Int.ediv_le_ediv hpos (by omega)
    have hmul := Int.mul_le_mul_of_nonneg_right hq hA
    omega

theorem Adds_level_nonneg (clks : List Clock) : ∀ (b : Bucket), 0 ≤ b.level →
    0 ≤ (b.Adds clks).1.level := by
  induction clks with
  | nil => intro b h; exact h
  | cons clk rest ih =>
    intro b h
    rw [Adds_cons]
    apply ih
    have := drained_level_nonneg b clk h
    rw [Add_fst_level]
    split <;> omega

set_option maxRecDepth 20000 in
/-- The scenario of `TestAddRace` with the eight calls run one after the other:
ten calls fill the bucket, four seconds pass, and of eight more calls five are
admitted and the level is 10 again. -/
theorem TestAddRace_serial :
    successes (((Bucket.fresh 10 5 (3 * Second)).Adds
        (List.replicate 10 (Clock.const (63412729445 * Second)))).1.Adds
        (List.replicate 8 (Clock.const (63412729449 * Second)))).2 = 5 ∧
      (((Bucket.fresh 10 5 (3 * Second)).Adds
        (List.replicate 10 (Clock.const (63412729445 * Second)))).1.Adds
        (List.replicate 8 (Clock.const (63412729449 * Second)))).1.level = 10 := by
  decide

theorem wrap64_of_inRange (x : Int) (h1 : minInt64 ≤ x) (h2 : x ≤ maxInt64) : wrap64 x = x := by
  unfold wrap64
  unfold minInt64 at h1
  unfold maxInt64 at h2
  omega

/-! ## The exact model and the 64-bit methods

Where no duration saturates and no result leaves the 64-bit range, `drain64`
and `Add64` compute what `drain` and `Add` compute. -/

theorem subSat_of_inRange (t u : Int) (h1 : minInt64 ≤ t - u) (h2 : t - u ≤ maxInt64) :
    subSat t u = t - u := by
  unfold subSat
  rw [if_neg (by omega), if_neg (by omega)]

theorem tdiv_inRange (a p : Int) (h0 : 0 ≤ a) (h1 : a ≤ maxInt64) :
    minInt64 ≤ a.tdiv p ∧ a.tdiv p ≤ maxInt64 := by
  have habs : (a.tdiv p).natAbs ≤ a.natAbs := by
    rw [Int.natAbs_tdiv]
    exact Nat.div_le_self _ _
  unfold maxInt64 at h1 ⊢
  unfold minInt64
  omega

theorem timeSince_le (b : Bucket) (now : Int) (h : now - b.lastDrain ≤ maxInt64) :
    b.timeSince now ≤ maxInt64 := by
  rw [timeSince_eq]
  unfold maxInt64 at h ⊢
  omega

theorem drain64_eq_drain (b : Bucket) (clk : Clock)
    (hs1 : minInt64 ≤ clk.atSince - b.lastDrain) (hs2 : clk.atSince - b.lastDrain ≤ maxInt64)
    (hp1 : minInt64 ≤ b.numTimes clk.atSince * b.DrainAmount)
    (hp2 : b.numTimes clk.atSince * b.DrainAmount ≤ maxInt64)
    (hl1 : minInt64 ≤ b.level - b.numTimes clk.atSince * b.DrainAmount)
    (hl2 : b.level - b.numTimes clk.atSince * b.DrainAmount ≤ maxInt64) :
    b.drain64 clk = b.drain clk := by
  have hnt : (if b.DrainPeriod = 0 then (1 : Int)
      else wrap64 ((b.timeSince clk.atSince).tdiv b.DrainPeriod)) = b.numTimes clk.atSince := by
    unfold Bucket.numTimes
    by_cases hz : b.DrainPeriod = 0
    · rw [if_pos hz, if_pos hz]
    · have hr := tdiv_inRange (b.timeSince clk.atSince) b.DrainPeriod
        (timeSince_nonneg b clk.atSince) (timeSince_le b clk.atSince hs2)
      rw [if_neg hz, if_neg hz, wrap64_of_inRange _ hr.1 hr.2]
  have hts : (if subSat clk.atSince b.lastDrain < 0 then 0 else subSat clk.atSince b.lastDrain)
      = b.timeSince clk.atSince := by
    rw [subSat_of_inRange _ _ hs1 hs2]
    rfl
  unfold Bucket.drain64
  simp only [hts, hnt, wrap64_of_inRange _ hp1 hp2, wrap64_of_inRange _ hl1 hl2]
  rfl

theorem Add64_eq_Add (b : Bucket) (clk : Clock)
    (ha1 : minInt64 ≤ clk.atAdd - b.lastDrain) (ha2 : clk.atAdd - b.lastDrain ≤ maxInt64)
    (hs1 : minInt64 ≤ clk.atSince - b.lastDrain) (hs2 : clk.atSince - b.lastDrain ≤ maxInt64)
    (hp1 : minInt64 ≤ b.numTimes clk.atSince * b.DrainAmount)
    (hp2 : b.numTimes clk.atSince * b.DrainAmount ≤ maxInt64)
    (hl1 : minInt64 ≤ b.level - b.numTimes clk.atSince * b.DrainAmount)
    (hl2 : b.level - b.numTimes clk.atSince * b.DrainAmount ≤ maxInt64)
    (hl : minInt64 ≤ b.level) (hc : b.Capacity ≤ maxInt64) :
    b.Add64 clk = b.Add clk := by
  have hd : (if (decide (subSat clk.atAdd b.lastDrain ≥ b.DrainPeriod) ||
      decide (subSat clk.atAdd b.lastDrain < 0)) = true then b.drain64 clk else b)
      = b.drained clk := by
    rw [subSat_of_inRange _ _ ha1 ha2, drain64_eq_drain b clk hs1 hs2 hp1 hp2 hl1 hl2]
    rfl
  have hlow : minInt64 ≤ (b.drained clk).level := by
    unfold Bucket.drained
    split
    · have := drain_level_nonneg b clk
      unfold minInt64
      omega
    · exact hl
  unfold Bucket.Add64 Bucket.Add
  simp only [hd]
  by_cases hlt : (b.drained clk).level < (b.drained clk).Capacity
  · have hw : wrap64 ((b.drained clk).level + 1) = (b.drained clk).level + 1 := by
      apply wrap64_of_inRange
      · unfold minInt64 at hlow ⊢; omega
      · rw [drained_Capacity] at hlt; omega
    rw [if_pos hlt, if_pos hlt, hw]
  · rw [if_neg hlt, if_neg hlt]

/-! ## Facts of the exact-arithmetic model -/

/-- In exact integer arithmetic: for a bucket with non-negative Capacity,
DrainAmount and DrainPeriod, starting fresh, after any finite sequence of Add
calls under arbitrary clock readings the level lies between 0 and Capacity. -/
theorem exact_level_invariant (c a : Int) (p : Int) (clks : List Clock)
    (hc : 0 ≤ c) (ha : 0 ≤ a) (hp : 0 ≤ p) :
    0 ≤ ((Bucket.fresh c a p).Adds clks).1.level ∧
      ((Bucket.fresh c a p).Adds clks).1.level ≤ c :=
  Adds_level_bounds clks (Bucket.fresh c a p) ha hp (le_refl _) hc

/-- In exact integer arithmetic: for a bucket with non-negative Capacity,
DrainAmount and DrainPeriod, in any state reached from the fresh bucket by Add
calls, an Add that returns BucketOverflow leaves the level as it was. -/
theorem exact_rejection_keeps_level (c a p : Int) (clks : List Clock) (clk : Clock)
    (hc : 0 ≤ c) (ha : 0 ≤ a) (hp : 0 ≤ p)
    (hrej : (((Bucket.fresh c a p).Adds clks).1.Add clk).2 = some BucketOverflow.mk) :
    (((Bucket.fresh c a p).Adds clks).1.Add clk).1.level =
      ((Bucket.fresh c a p).Adds clks).1.level := by
  have hinv := Adds_level_bounds clks (Bucket.fresh c a p) ha hp (le_refl _) hc
  have hA := Adds_DrainAmount clks (Bucket.fresh c a p)
  have hP := Adds_DrainPeriod clks (Bucket.fresh c a p)
  have hC := Adds_Capacity clks (Bucket.fresh c a p)
  generalize ((Bucket.fresh c a p).Adds clks).1 = s at *
  have hA0 : 0 ≤ s.DrainAmount := by rw [hA]; exact ha
  have hP0 : 0 ≤ s.DrainPeriod := by rw [hP]; exact hp
  have h1 := drained_level_nonneg s clk hinv.1
  have h2 := drained_level_le s clk hA0 hP0 hinv.1
  have hC0 : (Bucket.fresh c a p).Capacity = c := rfl
  rw [Add_snd] at hrej
  rw [Add_fst_level]
  split at hrej
  · exact absurd hrej (by simp)
  · rename_i hge
    rw [if_neg hge]
    omega

/-- In exact integer arithmetic: on a fresh bucket with DrainAmount >= 0 and
DrainPeriod > 0, of n Add calls at one clock reading the i-th succeeds iff
i <= c. -/
theorem exact_burst_limit (c a p t : Int) (n : Nat) (_hc : 0 ≤ c) (ha : 0 ≤ a) (hp : 0 < p) :
    ((Bucket.fresh c a p).Adds (List.replicate n (Clock.const t))).2 =
        (List.range n).map (fun (i : Nat) =>
          if (i : Int) + 1 ≤ c then none else some BucketOverflow.mk) ∧
      successes ((Bucket.fresh c a p).Adds (List.replicate n (Clock.const t))).2 =
        min n c.toNat ∧
      failures ((Bucket.fresh c a p).Adds (List.replicate n (Clock.const t))).2 =
        n - c.toNat := by
  have h0 : ((Bucket.fresh c a p).drained (Clock.const t)).level = 0 := by
    have h1 := drained_level_nonneg (Bucket.fresh c a p) (Clock.const t) (le_refl _)
    have h2 := drained_level_le (Bucket.fresh c a p) (Clock.const t) ha (le_of_lt hp) (le_refl _)
    have h3 : (Bucket.fresh c a p).level = 0 := rfl
    omega
  have hrun := Adds_const t n (Bucket.fresh c a p) hp
  rw [h0] at hrun
  have hcap : (Bucket.fresh c a p).Capacity = c := rfl
  rw [hcap] at hrun
  rw [hrun]
  refine ⟨verdicts_eq_map 0 c c n (fun i => by omega), ?_, ?_⟩
  · rw [successes_verdicts]; simp
  · rw [failures_verdicts]; simp

/-- In exact integer arithmetic: for a full bucket with Capacity c >= 0,
DrainAmount a >= 0 and DrainPeriod p > 0 whose last drain was at t0, and a
reading t >= t0 with k = floor((t - t0) / p), of m Add calls at the reading t
the i-th succeeds iff i <= min(k * a, c). -/
theorem exact_refill_after_periods (b : Bucket) (t : Int) (m : Nat)
    (hc : 0 ≤ b.Capacity) (ha : 0 ≤ b.DrainAmount) (hp : 0 < b.DrainPeriod)
    (hfull : b.level = b.Capacity) (ht : b.lastDrain ≤ t) :
    (b.Adds (List.replicate m (Clock.const t))).2 =
        (List.range m).map (fun (i : Nat) =>
          if (i : Int) + 1 ≤ min ((t - b.lastDrain) / b.DrainPeriod * b.DrainAmount) b.Capacity
          then none else some BucketOverflow.mk) ∧
      successes (b.Adds (List.replicate m (Clock.const t))).2 =
        min m (min ((t - b.lastDrain) / b.DrainPeriod * b.DrainAmount) b.Capacity).toNat ∧
      failures (b.Adds (List.replicate m (Clock.const t))).2 =
        m - (min ((t - b.lastDrain) / b.DrainPeriod * b.DrainAmount) b.Capacity).toNat := by
  have hk : 0 ≤ (t - b.lastDrain) / b.DrainPeriod :=
    Int.ediv_nonneg (by omega) (le_of_lt hp)
  have hka := Int.mul_nonneg hk ha
  have hlev := drained_level_forward b t hp ht (by omega)
  rw [Adds_const t m b hp, hlev]
  refine ⟨verdicts_eq_map _ _ _ m (fun i => by omega), ?_, ?_⟩
  · rw [successes_verdicts]; congr 2; omega
  · rw [failures_verdicts]; congr 2; omega

/-- In exact integer arithmetic: with DrainPeriod p > 0, `drain` at the reading
now agrees with `drainSpec`: the level becomes
max(0, level - floor(max(now - lastDrain, 0) / p) * DrainAmount) and lastDrain
becomes now. -/
theorem exact_drain_refines_spec (b : Bucket) (now : Int) (hp : 0 < b.DrainPeriod) :
    b.drain (Clock.const now) = drainSpec b now ∧
      (b.drain (Clock.const now)).level =
        max 0 (b.level - max (now - b.lastDrain) 0 / b.DrainPeriod * b.DrainAmount) ∧
      (b.drain (Clock.const now)).lastDrain = now := by
  have hnt : b.numTimes (Clock.const now).atSince =
      max (now - b.lastDrain) 0 / b.DrainPeriod := by
    unfold Bucket.numTimes
    rw [if_neg (by omega), timeSince_eq, Int.tdiv_eq_ediv (by simp [Clock.const]) (by omega)]
    simp only [Clock.const]
    rw [max_comm]
  have hlev := drain_level b (Clock.const now)
  rw [hnt] at hlev
  refine ⟨?_, hlev, rfl⟩
  rw [drain_eq, hlev]
  unfold drainSpec
  simp only [Clock.const]
  rw [if_neg (by omega), Int.fdiv_eq_ediv _ (by omega), max_comm]

/-- In exact integer arithmetic: for a bucket with DrainAmount >= 0 and
DrainPeriod >= 0 in a state with level >= 0 and two readings t <= u, if Add at
t succeeds then Add on the same state at u succeeds too, and the level after
the call at u is at most the level after the call at t. -/
theorem exact_waiting_never_hurts (b : Bucket) (t u : Int)
    (ha : 0 ≤ b.DrainAmount) (hp : 0 ≤ b.DrainPeriod) (hl : 0 ≤ b.level) (htu : t ≤ u)
    (hsucc : (b.Add (Clock.const t)).2 = none) :
    (b.Add (Clock.const u)).2 = none ∧
      (b.Add (Clock.const u)).1.level ≤ (b.Add (Clock.const t)).1.level := by
  have hmono := drained_level_antitone b t u ha hp hl htu
  rw [Add_snd] at hsucc
  have hlt : (b.drained (Clock.const t)).level < b.Capacity := by
    by_contra hne
    rw [if_neg hne] at hsucc
    exact absurd hsucc (by simp)
  have hlu : (b.drained (Clock.const u)).level < b.Capacity := by omega
  rw [Add_snd, Add_fst_level, Add_fst_level, if_pos hlu, if_pos hlu, if_pos hlt]
  exact ⟨rfl, by omega⟩

/-! ## Claims -/

/-- C2: Add returns nil exactly when the level after any due drain is below
Capacity, and the level then ends one above the drained level; otherwise Add
returns BucketOverflow and the level ends at the drained level. The drained
level is the level floored at 0 after removing numTimes * DrainAmount when a
drain is due, and the old level otherwise. -/
theorem C2_admission_decision (b : Bucket) (clk : Clock) :
    ((b.Add clk).2 = none ↔ (b.drained clk).level < b.Capacity) ∧
    ((b.Add clk).2 = some BucketOverflow.mk ↔ ¬ (b.drained clk).level < b.Capacity) ∧
    (b.Add clk).1.level =
      (if (b.drained clk).level < b.Capacity then (b.drained clk).level + 1
       else (b.drained clk).level) ∧
    (b.drained clk).level =
      (if b.drainDue clk.atAdd = true then
         max 0 (b.level - b.numTimes clk.atSince * b.DrainAmount)
       else b.level) := by
  refine ⟨?_, ?_, Add_fst_level b clk, ?_⟩
  · rw [Add_snd]; split <;> simp [*]
  · rw [Add_snd]; split <;> simp [*]
  · unfold Bucket.drained
    split
    · exact drain_level b clk
    · rfl

/-- C6: on a fresh bucket with DrainAmount 0 and Capacity c >= 0, whatever the
DrainPeriod and the clock readings, the i-th Add succeeds iff i <= c; so
exactly min(n, c) of n calls are admitted and every later Add returns
BucketOverflow. -/
theorem C6_no_leak (c p : Int) (clks : List Clock) (_hc : 0 ≤ c) :
    ((Bucket.fresh c 0 p).Adds clks).2 =
        (List.range clks.length).map (fun (i : Nat) =>
          if (i : Int) + 1 ≤ c then none else some BucketOverflow.mk) ∧
      successes ((Bucket.fresh c 0 p).Adds clks).2 = min clks.length c.toNat ∧
      failures ((Bucket.fresh c 0 p).Adds clks).2 = clks.length - c.toNat := by
  have hrun := Adds_no_leak clks (Bucket.fresh c 0 p) rfl (le_refl _)
  have hcap : (Bucket.fresh c 0 p).Capacity = c := rfl
  have hlev : (Bucket.fresh c 0 p).level = 0 := rfl
  rw [hcap, hlev] at hrun
  rw [hrun]
  refine ⟨verdicts_eq_map 0 c c _ (fun i => by omega), ?_, ?_⟩
  · rw [successes_verdicts]; simp
  · rw [failures_verdicts]; simp

/-- Witness for C6: capacity 10, 20 calls, 5 seconds pass, 20 more calls: 10
successes and 30 failures. -/
theorem C6_no_leak_witness :
    ((Bucket.fresh 10 0 0).Adds
        (List.replicate 20 (Clock.const (63412729445 * Second)) ++
          List.replicate 20 (Clock.const (63412729450 * Second)))).2 =
        (List.range 40).map (fun (i : Nat) =>
          if (i : Int) + 1 ≤ 10 then none else some BucketOverflow.mk) ∧
      successes ((Bucket.fresh 10 0 0).Adds
        (List.replicate 20 (Clock.const (63412729445 * Second)) ++
          List.replicate 20 (Clock.const (63412729450 * Second)))).2 = 10 ∧
      failures ((Bucket.fresh 10 0 0).Adds
        (List.replicate 20 (Clock.const (63412729445 * Second)) ++
          List.replicate 20 (Clock.const (63412729450 * Second)))).2 = 30 :=
  C6_no_leak 10 0
    (List.replicate 20 (Clock.const (63412729445 * Second)) ++
      List.replicate 20 (Clock.const (63412729450 * Second))) (by decide)

/-- C7: on a fresh bucket with DrainPeriod 0, DrainAmount >= 1 and
Capacity >= 1, every Add of every sequence of Add calls returns nil, whatever
the clock readings. -/
theorem C7_zero_period_never_rejects (c a : Int) (clks : List Clock)
    (hc : 1 ≤ c) (ha : 1 ≤ a) :
    ((Bucket.fresh c a 0).Adds clks).2 = List.replicate clks.length none :=
  Adds_zero_period clks (Bucket.fresh c a 0) rfl ha hc (by simp [Bucket.fresh])

/-- Witness for C7: capacity 1, drain amount 1, 20 consecutive calls on a
running clock all succeed. -/
theorem C7_zero_period_never_rejects_witness :
    ((Bucket.fresh 1 1 0).Adds
        ((List.range 20).map fun (i : Nat) => (⟨3 * i, 3 * i + 1, 3 * i + 2⟩ : Clock))).2 =
      List.replicate 20 none :=
  C7_zero_period_never_rejects 1 1
    ((List.range 20).map fun (i : Nat) => (⟨3 * i, 3 * i + 1, 3 * i + 2⟩ : Clock))
    (by decide) (by decide)

/-- C8: on a fresh bucket with Capacity 0, whatever the DrainAmount, the
DrainPeriod and the clock readings, every Add of every sequence of Add calls
returns BucketOverflow. -/
theorem C8_zero_capacity_rejects (a p : Int) (clks : List Clock) :
    ((Bucket.fresh 0 a p).Adds clks).2 =
      List.replicate clks.length (some BucketOverflow.mk) :=
  Adds_zero_capacity clks (Bucket.fresh 0 a p) rfl (le_refl _)

/-- C9: when the reading now that Add takes satisfies
0 <= now - lastDrain < DrainPeriod, Add performs no drain: lastDrain is left
unchanged and the level changes only by the admission, one more if it was below
Capacity, otherwise unchanged with BucketOverflow returned. -/
theorem C9_partial_period_no_drain (b : Bucket) (clk : Clock)
    (h0 : 0 ≤ clk.atAdd - b.lastDrain) (h1 : clk.atAdd - b.lastDrain < b.DrainPeriod) :
    b.drainDue clk.atAdd = false ∧
      (b.Add clk).1.lastDrain = b.lastDrain ∧
      b.Add clk =
        (if b.level < b.Capacity then ({ b with level := b.level + 1 }, none)
         else (b, some BucketOverflow.mk)) := by
  have hdue : b.drainDue clk.atAdd = false := by
    unfold Bucket.drainDue
    simp only [ge_iff_le, Bool.or_eq_false_iff, decide_eq_false_iff_not, not_le, not_lt]
    exact ⟨h1, h0⟩
  have hd := drained_of_not_due b clk hdue
  refine ⟨hdue, ?_, ?_⟩
  · rw [Add_lastDrain, hd]
  · unfold Bucket.Add
    rw [hd]

/-- Witness for C9: capacity 10, drain 2 per 3s, full; one second after the
last drain Add is rejected and nothing is drained. -/
theorem C9_partial_period_no_drain_witness :
    (⟨10, 2, 3 * Second, 10, 5 * Second⟩ : Bucket).drainDue (Clock.const (6 * Second)).atAdd
        = false ∧
      ((⟨10, 2, 3 * Second, 10, 5 * Second⟩ : Bucket).Add (Clock.const (6 * Second))).1.lastDrain
        = 5 * Second ∧
      (⟨10, 2, 3 * Second, 10, 5 * Second⟩ : Bucket).Add (Clock.const (6 * Second)) =
        (⟨10, 2, 3 * Second, 10, 5 * Second⟩, some BucketOverflow.mk) :=
  C9_partial_period_no_drain ⟨10, 2, 3 * Second, 10, 5 * Second⟩ (Clock.const (6 * Second))
    (by decide) (by decide)

/-- C10: with DrainPeriod > 0 and a reading now strictly earlier than
lastDrain, Add takes the drain branch, the elapsed time is taken as 0, zero
periods are drained, the level is not reduced (a level of at least 0 is kept
as it is), lastDrain becomes now, and the call is admitted iff the level is
below Capacity. -/
theorem C10_backward_clock (b : Bucket) (now : Int)
    (hp : 0 < b.DrainPeriod) (hback : now < b.lastDrain) :
    b.drainDue now = true ∧
      b.timeSince now = 0 ∧
      b.numTimes now = 0 ∧
      (b.drained (Clock.const now)).level = max 0 b.level ∧
      b.level ≤ (b.drained (Clock.const now)).level ∧
      (b.Add (Clock.const now)).1.lastDrain = now ∧
      ((b.Add (Clock.const now)).2 = none ↔ max 0 b.level < b.Capacity) ∧
      ((b.Add (Clock.const now)).2 = some BucketOverflow.mk ↔ ¬ max 0 b.level < b.Capacity) ∧
      (b.Add (Clock.const now)).1.level =
        (if max 0 b.level < b.Capacity then max 0 b.level + 1 else max 0 b.level) ∧
      (0 ≤ b.level →
        (b.drained (Clock.const now)).level = b.level ∧
        ((b.Add (Clock.const now)).2 = none ↔ b.level < b.Capacity)) := by
  have hdue : b.drainDue now = true := by
    unfold Bucket.drainDue
    simp only [ge_iff_le, Bool.or_eq_true, decide_eq_true_eq]
    omega
  have hts : b.timeSince now = 0 := by rw [timeSince_eq]; omega
  have hnt : b.numTimes now = 0 := by
    unfold Bucket.numTimes
    rw [if_neg (by omega), hts]
    exact Int.zero_tdiv _
  have hd : b.drained (Clock.const now) = b.drain (Clock.const now) :=
    drained_of_due b (Clock.const now) hdue
  have hlev : (b.drained (Clock.const now)).level = max 0 b.level := by
    rw [hd, drain_level]
    have : b.numTimes (Clock.const now).atSince = 0 := hnt
    rw [this, Int.zero_mul, Int.sub_zero]
  have hsnd := Add_snd b (Clock.const now)
  have hfst := Add_fst_level b (Clock.const now)
  rw [hlev] at hsnd hfst
  have hnone : (b.Add (Clock.const now)).2 = none ↔ max 0 b.level < b.Capacity := by
    rw [hsnd]; split <;> simp [*]
  refine ⟨hdue, hts, hnt, hlev, ?_, ?_, hnone, ?_, hfst, ?_⟩
  · rw [hlev]; omega
  · rw [Add_lastDrain, hd]; rfl
  · rw [hsnd]; split <;> simp [*]
  · intro hl
    have hmax : max 0 b.level = b.level := by omega
    exact ⟨by rw [hlev, hmax], by rw [hnone, hmax]⟩

/-- Witness for C10: capacity 10, drain 2 per 3s, level 4, last drain at 5s;
a reading of 2s resynchronises lastDrain, drains nothing and admits. -/
theorem C10_backward_clock_witness :
    (⟨10, 2, 3 * Second, 4, 5 * Second⟩ : Bucket).Add (Clock.const (2 * Second)) =
        (⟨10, 2, 3 * Second, 5, 2 * Second⟩, none) ∧
      (⟨10, 2, 3 * Second, 4, 5 * Second⟩ : Bucket).numTimes (2 * Second) = 0 ∧
      ((⟨10, 2, 3 * Second, 4, 5 * Second⟩ : Bucket).drained (Clock.const (2 * Second))).level
        = 4 :=
  have h := C10_backward_clock ⟨10, 2, 3 * Second, 4, 5 * Second⟩ (2 * Second)
    (by decide) (by decide)
  ⟨by decide, h.2.2.1, (h.2.2.2.2.2.2.2.2.2 (by decide)).1⟩

/-- C11 (as amended): when n Add calls are made one after the other on a full
bucket (level = Capacity) with a nonzero DrainPeriod, all at the reading of the
last drain (zero elapsed time), none of the n calls is admitted and all n
return BucketOverflow. -/
theorem C11_full_bucket_rejects_all (b : Bucket) (n : Nat)
    (hp : b.DrainPeriod ≠ 0) (hfull : b.level = b.Capacity) :
    (b.Adds (List.replicate n (Clock.const b.lastDrain))).2 =
        List.replicate n (some BucketOverflow.mk) ∧
      successes (b.Adds (List.replicate n (Clock.const b.lastDrain))).2 = 0 ∧
      failures (b.Adds (List.replicate n (Clock.const b.lastDrain))).2 = n := by
  have h := Adds_full_no_elapsed b.lastDrain n b hp (by omega) rfl
  rw [h]
  exact ⟨rfl, successes_replicate_overflow n, failures_replicate_overflow n⟩

/-- Witness for C11 (as amended): capacity 3, full, 5 calls at the reading of
the last drain: no success, 5 failures. -/
theorem C11_full_bucket_rejects_all_witness :
    ((⟨3, 1, Second, 3, 7⟩ : Bucket).Adds (List.replicate 5 (Clock.const 7))).2 =
        List.replicate 5 (some BucketOverflow.mk) ∧
      successes ((⟨3, 1, Second, 3, 7⟩ : Bucket).Adds (List.replicate 5 (Clock.const 7))).2 = 0 ∧
      failures ((⟨3, 1, Second, 3, 7⟩ : Bucket).Adds (List.replicate 5 (Clock.const 7))).2 = 5 :=
  C11_full_bucket_rejects_all ⟨3, 1, Second, 3, 7⟩ 5 (by decide) (by decide)

/-- C11 as stated fails: on a full bucket of capacity 3 with zero elapsed
time, 5 Add calls admit 0 calls, not 3. -/
theorem C11_counterexample :
    successes ((⟨3, 1, Second, 3, 7⟩ : Bucket).Adds (List.replicate 5 (Clock.const 7))).2 = 0 ∧
      successes ((⟨3, 1, Second, 3, 7⟩ : Bucket).Adds (List.replicate 5 (Clock.const 7))).2
        ≠ 3 := by
  decide

/-- C14: with DrainPeriod 0 and DrainAmount a > 0, whatever the clock shows
(any elapsed time, also a clock that went backward), Add first drains exactly
one unit: the level becomes max(0, level - a) and lastDrain the reading; only
then is the capacity check applied to that level. -/
theorem C14_zero_period_one_unit (b : Bucket) (clk : Clock)
    (hp : b.DrainPeriod = 0) (_ha : 0 < b.DrainAmount) :
    b.drainDue clk.atAdd = true ∧
      b.numTimes clk.atSince = 1 ∧
      b.drained clk =
        { b with level := max 0 (b.level - b.DrainAmount), lastDrain := clk.atStamp } ∧
      b.Add clk =
        (if max 0 (b.level - b.DrainAmount) < b.Capacity then
           ({ b with level := max 0 (b.level - b.DrainAmount) + 1, lastDrain := clk.atStamp },
             none)
         else
           ({ b with level := max 0 (b.level - b.DrainAmount), lastDrain := clk.atStamp },
             some BucketOverflow.mk)) := by
  have hdue := drainDue_of_zero_period b clk.atAdd hp
  have hnt := numTimes_of_zero_period b clk.atSince hp
  have hd : b.drained clk =
      { b with level := max 0 (b.level - b.DrainAmount), lastDrain := clk.atStamp } := by
    rw [drained_of_due b clk hdue, drain_eq, drain_level, hnt, Int.one_mul]
  refine ⟨hdue, hnt, hd, ?_⟩
  unfold Bucket.Add
  rw [hd]

/-- Witness for C14: capacity 10, drain amount 3, level 10; a call long after
the last drain removes 3, not more, and is then admitted. -/
theorem C14_zero_period_one_unit_witness :
    (⟨10, 3, 0, 10, 5 * Second⟩ : Bucket).numTimes (Clock.const (900 * Second)).atSince = 1 ∧
      (⟨10, 3, 0, 10, 5 * Second⟩ : Bucket).drained (Clock.const (900 * Second)) =
        ⟨10, 3, 0, 7, 900 * Second⟩ ∧
      (⟨10, 3, 0, 10, 5 * Second⟩ : Bucket).Add (Clock.const (900 * Second)) =
        (⟨10, 3, 0, 8, 900 * Second⟩, none) :=
  have h := C14_zero_period_one_unit ⟨10, 3, 0, 10, 5 * Second⟩ (Clock.const (900 * Second))
    (by decide) (by decide)
  ⟨h.2.1, h.2.2.1, h.2.2.2⟩

/-- C15: on a fresh bucket with Capacity < 0, whatever the DrainAmount, the
DrainPeriod and the clock readings, every Add of every sequence of Add calls
returns BucketOverflow. -/
theorem C15_negative_capacity_rejects (c a p : Int) (clks : List Clock) (hc : c < 0) :
    ((Bucket.fresh c a p).Adds clks).2 =
      List.replicate clks.length (some BucketOverflow.mk) :=
  Adds_nonpos_capacity clks (Bucket.fresh c a p) (le_of_lt hc) (le_refl _)

/-- Witness for C15: capacity -1, three calls under a running clock. -/
theorem C15_negative_capacity_rejects_witness :
    ((Bucket.fresh (-1) 2 Second).Adds
        [Clock.const 0, Clock.const (5 * Second), Clock.const (2 * Second)]).2 =
      List.replicate 3 (some BucketOverflow.mk) :=
  C15_negative_capacity_rejects (-1) 2 Second
    [Clock.const 0, Clock.const (5 * Second), Clock.const (2 * Second)] (by decide)

/-- C16: for a bucket with Capacity c >= 0, DrainAmount a >= 0 and
DrainPeriod p > 0 in a state with 0 <= level <= c and lastDrain = t0, and
non-decreasing readings t0 <= t1 <= ... <= tn with one Add per reading, the
number of Adds that succeed is at most (c - level) + floor((tn - t0) / p) * a. -/
theorem C16_rate_limit_bound (b : Bucket) (ts : List Int)
    (_hc : 0 ≤ b.Capacity) (ha : 0 ≤ b.DrainAmount) (hp : 0 < b.DrainPeriod)
    (hl0 : 0 ≤ b.level) (hlc : b.level ≤ b.Capacity)
    (hmono : List.Sorted (fun x y : Int => x ≤ y) (b.lastDrain :: ts)) :
    (successes (b.Adds (ts.map Clock.const)).2 : Int) ≤
      (b.Capacity - b.level) +
        ((b.lastDrain :: ts).getLast (List.cons_ne_nil _ _) - b.lastDrain) / b.DrainPeriod
          * b.DrainAmount := by
  have hsc := List.sorted_cons.1 hmono
  have hlast := sorted_le_getLast (b.lastDrain :: ts) (List.cons_ne_nil _ _) hmono
  exact Adds_allowance _ ts b ha hp hl0 hlc hsc.2 hsc.1
    (fun t ht => hlast t (List.mem_cons_of_mem _ ht))
    (hlast _ (List.mem_cons_self _ _))

/-- Witness for C16: capacity 10, drain 2 per 3s, level 9, readings at 0s, 1s,
4s, 4s and 7s after the last drain: at most 1 + 2 * 2 = 5 successes. -/
theorem C16_rate_limit_bound_witness :
    (successes ((⟨10, 2, 3 * Second, 9, 0⟩ : Bucket).Adds
        ([0, Second, 4 * Second, 4 * Second, 7 * Second].map Clock.const)).2 : Int) ≤
      (10 - 9) + (7 * Second - 0) / (3 * Second) * 2 :=
  C16_rate_limit_bound ⟨10, 2, 3 * Second, 9, 0⟩
    [0, Second, 4 * Second, 4 * Second, 7 * Second]
    (by decide) (by decide) (by decide) (by decide) (by decide) (by decide)

/-- C18 fails on the code: in 64-bit arithmetic the product
numTimes * DrainAmount wraps.  On a fresh bucket with Capacity 1, DrainAmount 2
and DrainPeriod 1ns, called at 2010-06-21 15:04:05 UTC, the elapsed time
saturates at 2^63 - 1, the product wraps to -2, drain raises the level from 0
to 2, and the first Add returns BucketOverflow with the level above Capacity.
The same happens with Capacity 100, DrainAmount 1500 and DrainPeriod 1µs. -/
theorem C18_drain64_raises_level :
    ((Bucket.fresh 1 2 1).drain64 (Clock.const (63412729445 * Second))).level = 2 ∧
      ((Bucket.fresh 1 2 1).Add64 (Clock.const (63412729445 * Second))).2 =
        some BucketOverflow.mk ∧
      ((Bucket.fresh 1 2 1).Add64 (Clock.const (63412729445 * Second))).1.level = 2 ∧
      ((Bucket.fresh 100 1500 1000).Add64 (Clock.const (63412729445 * Second))).2 =
        some BucketOverflow.mk ∧
      ((Bucket.fresh 100 1500 1000).Add64 (Clock.const (63412729445 * Second))).1.level =
        4611686018427389116 := by
  decide

/-- C1 fails on the code: in 64-bit arithmetic a fresh bucket with Capacity 1,
DrainAmount 2 and DrainPeriod 1ns, after one Add at 2010-06-21 15:04:05 UTC,
has level 2, above its Capacity. -/
theorem C1_level_above_capacity64 :
    ((Bucket.fresh 1 2 1).Adds64 [Clock.const (63412729445 * Second)]).1.level = 2 ∧
      ¬ ((Bucket.fresh 1 2 1).Adds64 [Clock.const (63412729445 * Second)]).1.level ≤
        (Bucket.fresh 1 2 1).Capacity := by
  decide

set_option maxRecDepth 20000 in
/-- C3 fails on the code: in 64-bit arithmetic the first Add on a fresh bucket
with Capacity 1, DrainAmount 2 and DrainPeriod 1ns at a 2010 reading returns
BucketOverflow and moves the level from 0 to 2; a bucket with Capacity 10,
DrainAmount 2^63 - 1 and DrainPeriod 1ns, filled by 10 Adds and called 2ns
later, returns BucketOverflow and moves the level from 10 to 12. -/
theorem C3_rejected_add64_moves_level :
    (Bucket.fresh 1 2 1).level = 0 ∧
      ((Bucket.fresh 1 2 1).Add64 (Clock.const (63412729445 * Second))).2 =
        some BucketOverflow.mk ∧
      ((Bucket.fresh 1 2 1).Add64 (Clock.const (63412729445 * Second))).1.level = 2 ∧
      ((Bucket.fresh 10 maxInt64 1).Adds64
        (List.replicate 10 (Clock.const (63412729445 * Second)))).1.level = 10 ∧
      (((Bucket.fresh 10 maxInt64 1).Adds64
        (List.replicate 10 (Clock.const (63412729445 * Second)))).1.Add64
          (Clock.const (63412729445 * Second + 2))).2 = some BucketOverflow.mk ∧
      (((Bucket.fresh 10 maxInt64 1).Adds64
        (List.replicate 10 (Clock.const (63412729445 * Second)))).1.Add64
          (Clock.const (63412729445 * Second + 2))).1.level = 12 := by
  decide

/-- C4 fails on the code: in 64-bit arithmetic, of three Adds at one 2010
reading on a fresh bucket with Capacity 1, DrainAmount 2 and DrainPeriod 1ns
none succeeds, where the first should. -/
theorem C4_first_add64_rejected :
    ((Bucket.fresh 1 2 1).Adds64
        (List.replicate 3 (Clock.const (63412729445 * Second)))).2 =
      List.replicate 3 (some BucketOverflow.mk) ∧
    successes ((Bucket.fresh 1 2 1).Adds64
        (List.replicate 3 (Clock.const (63412729445 * Second)))).2 = 0 ∧
    min 3 (1 : Int).toNat = 1 := by
  decide

/-- C5 fails on the code: in 64-bit arithmetic a full bucket with Capacity 10,
DrainAmount 2^63 - 1 and DrainPeriod 1ns admits none of 3 Adds made 2ns after
its last drain, where min(3, 2 * (2^63 - 1), 10) = 3 should succeed; and a full
bucket with Capacity 10, DrainAmount 1, DrainPeriod 9 * 10^18 ns and the zero
last drain admits 1 of 8 Adds at a 2010 reading, where 7 periods have passed
and min(8, 7, 10) = 7 should succeed. -/
theorem C5_refill64_miscounts :
    successes ((⟨10, maxInt64, 1, 10, 63412729445 * Second⟩ : Bucket).Adds64
        (List.replicate 3 (Clock.const (63412729445 * Second + 2)))).2 = 0 ∧
      min 3 (min ((63412729445 * Second + 2 - 63412729445 * Second) / 1 * maxInt64)
        10).toNat = 3 ∧
      successes ((⟨10, 1, 9000000000000000000, 10, 0⟩ : Bucket).Adds64
        (List.replicate 8 (Clock.const (63412729445 * Second)))).2 = 1 ∧
      min 8 (min ((63412729445 * Second - 0) / 9000000000000000000 * 1) 10).toNat = 7 := by
  decide

/-- C13 fails on the code: in 64-bit arithmetic drain on a fresh bucket with
DrainAmount 2 and DrainPeriod 1ns at a 2010 reading leaves level 2 where the
reference definition gives 0, and on a bucket with DrainAmount 2^63 - 1,
DrainPeriod 1ns and level 10 it leaves level 12 two nanoseconds after the last
drain where the reference definition gives 0. -/
theorem C13_drain64_departs_from_spec :
    ((Bucket.fresh 1 2 1).drain64 (Clock.const (63412729445 * Second))).level = 2 ∧
      (drainSpec (Bucket.fresh 1 2 1) (63412729445 * Second)).level = 0 ∧
      ((⟨10, maxInt64, 1, 10, 63412729445 * Second⟩ : Bucket).drain64
        (Clock.const (63412729445 * Second + 2))).level = 12 ∧
      (drainSpec ⟨10, maxInt64, 1, 10, 63412729445 * Second⟩
        (63412729445 * Second + 2)).level = 0 := by
  decide

/-- C17 fails on the code: in 64-bit arithmetic a fresh bucket with Capacity 1,
DrainAmount 2 and DrainPeriod 1ns admits an Add at the zero time and rejects it
at the later 2010 reading; a bucket with Capacity 10, DrainAmount 2^63 - 1,
DrainPeriod 1ns and level 5 ends at level 6 when called at its last drain and
at level 8 when called 2ns later. -/
theorem C17_waiting_hurts64 :
    (0 : Int) ≤ 63412729445 * Second ∧
      ((Bucket.fresh 1 2 1).Add64 (Clock.const 0)).2 = none ∧
      ((Bucket.fresh 1 2 1).Add64 (Clock.const (63412729445 * Second))).2 =
        some BucketOverflow.mk ∧
      ((⟨10, maxInt64, 1, 5, 63412729445 * Second⟩ : Bucket).Add64
        (Clock.const (63412729445 * Second))).1.level = 6 ∧
      ((⟨10, maxInt64, 1, 5, 63412729445 * Second⟩ : Bucket).Add64
        (Clock.const (63412729445 * Second + 2))).1.level = 8 := by
  decide

end leakybucket
